import Mathlib

/-!
# Verification of `aws_ssh_access.py`

Shallow embedding of the rule-reconciliation core of `aws_ssh_access.py`
(`update_security_group`), of the port-set derivation inside
`choose_security_group`, and of the identity-label fallback in `main`,
together with a model of the remote security-group API taken from the
specification, and proofs of the frozen claims about this program.

Python dictionaries coming back from `describe_security_groups` are embedded
as structures; a key that may be absent (`perm.get("FromPort")`,
`ip_range.get("Description")`) becomes an `Option` field, and a list key that
defaults to `[]` (`perm.get("IpRanges", [])`) becomes a plain list field.
Ports are embedded as `Int` (Python integers; AWS uses `-1` inside ICMP
rules, so `Nat` would be unfaithful).
-/

set_option autoImplicit false

/-- One element of a permission's `IpRanges` list: a CIDR string plus the
optional free-text `Description` used by the script as the identity label. -/
structure IpRange where
  cidrIp : String
  description : Option String
deriving DecidableEq

/-- One element of a security group's `IpPermissions` list. -/
structure IpPermission where
  ipProtocol : String
  fromPort : Option Int
  toPort : Option Int
  ipRanges : List IpRange
deriving DecidableEq

/-- A security group as returned by `describe_security_groups`. -/
structure SecurityGroup where
  groupId : String
  ipPermissions : List IpPermission
deriving DecidableEq

/-- The argument record of one `ec2.revoke_security_group_ingress` call as
issued by `update_security_group`. -/
structure RevokeCall where
  groupId : String
  ipProtocol : String
  fromPort : Int
  toPort : Int
  cidrIp : String
deriving DecidableEq

/-- The argument record of the single `ec2.authorize_security_group_ingress`
call issued by `update_security_group` (its one-element `IpPermissions`
argument flattened). -/
structure AuthorizeCall where
  groupId : String
  ipProtocol : String
  fromPort : Int
  toPort : Int
  ipRanges : List IpRange
deriving DecidableEq

/-!
## Embedding of `update_security_group` (source lines 194-233)

The Python function walks the local snapshot `sg["IpPermissions"]`; for every
permission with `FromPort == port` and every ip-range with
`Description == desc` it issues one revoke call with the hard-coded
parameters `IpProtocol="tcp", FromPort=port, ToPort=port` and the range's
`CidrIp`, setting `exists = True`; afterwards it issues one authorize call
for `(tcp, port, port, ip, desc)` and returns `(ip, exists)`.  The function
is embedded as the list of revoke calls it issues, the authorize call, and
the returned pair; `get_public_ip()` is an external HTTP call and is passed
in as the parameter `public_ip`.
-/

/-- The revoke calls issued by the two nested loops of
`update_security_group` (source lines 208-220), in program order. -/
def revokeCalls (sg : SecurityGroup) (port : Int) (desc : String) :
    List RevokeCall :=
  sg.ipPermissions.flatMap fun perm =>
    if perm.fromPort = some port then
      perm.ipRanges.filterMap fun r =>
        if r.description = some desc then
          some { groupId := sg.groupId, ipProtocol := "tcp",
                 fromPort := port, toPort := port, cidrIp := r.cidrIp }
        else none
    else []

/-- The `exists` flag returned by `update_security_group`: set iff the nested
loops found at least one matching ip-range. -/
def existsFlag (sg : SecurityGroup) (port : Int) (desc : String) : Bool :=
  !(revokeCalls sg port desc).isEmpty

/-- The single authorize call issued at source lines 223-231:
protocol tcp, port range `[port, port]`, one ip-range `(ip, desc)`. -/
def authorizeCall (sg : SecurityGroup) (port : Int) (desc ip : String) :
    AuthorizeCall :=
  { groupId := sg.groupId, ipProtocol := "tcp", fromPort := port,
    toPort := port, ipRanges := [{ cidrIp := ip, description := some desc }] }

/-- Embedding of `update_security_group(session, sg, port, user_name)`:
the mutation trace (revokes in order, then the one authorize) and the
returned pair `(ip, exists)`.  `public_ip` stands for the result of
`get_public_ip()`; the code appends `"/32"` to it before any use. -/
def update_security_group (sg : SecurityGroup) (port : Int)
    (user_name public_ip : String) :
    List RevokeCall × AuthorizeCall × String × Bool :=
  let ip := public_ip ++ "/32"
  let desc := user_name
  (revokeCalls sg port desc, authorizeCall sg port desc ip, ip,
   existsFlag sg port desc)

/-!
## Model of the remote mutation API

The remote side of `revoke_security_group_ingress` /
`authorize_security_group_ingress` is AWS code, not part of this repository.
It is modelled from the specification's external-interface section:
`revoke(policyId, protocol, portFrom, portTo, sourceCidr)` removes that exact
(rule, address/mask) pair, `authorize(policyId, rule)` adds the new entry.
-/

/-- Modelled from the spec: the effect of one revoke call on one permission.
A permission is affected iff its protocol and exact port bounds equal the
call's parameters; the call then deletes the entries carrying the revoked
CIDR (the free-text description is not part of a rule's identity). -/
def stepPerm (perm : IpPermission) (c : RevokeCall) : IpPermission :=
  if perm.ipProtocol = c.ipProtocol ∧ perm.fromPort = some c.fromPort ∧
      perm.toPort = some c.toPort then
    { perm with ipRanges :=
        perm.ipRanges.filter (fun r => decide (r.cidrIp ≠ c.cidrIp)) }
  else perm

/-- Modelled from the spec: the effect of one revoke call on the group. -/
def applyRevoke (sg : SecurityGroup) (c : RevokeCall) : SecurityGroup :=
  { sg with ipPermissions := sg.ipPermissions.map (fun perm => stepPerm perm c) }

/-- Modelled from the spec: `authorize` merges the new entries into the first
rule with the same protocol and exact port bounds, or appends a fresh rule
when none exists. -/
def addToFirst : List IpPermission → AuthorizeCall → List IpPermission
  | [], c => [{ ipProtocol := c.ipProtocol, fromPort := some c.fromPort,
                toPort := some c.toPort, ipRanges := c.ipRanges }]
  | perm :: rest, c =>
    if perm.ipProtocol = c.ipProtocol ∧ perm.fromPort = some c.fromPort ∧
        perm.toPort = some c.toPort then
      { perm with ipRanges := perm.ipRanges ++ c.ipRanges } :: rest
    else perm :: addToFirst rest c

/-- Modelled from the spec: the effect of the authorize call on the group. -/
def applyAuthorize (sg : SecurityGroup) (c : AuthorizeCall) : SecurityGroup :=
  { sg with ipPermissions := addToFirst sg.ipPermissions c }

/-- The remote group state after all revoke calls of one run have been
applied (and before the authorize call). -/
def postRevokeState (sg : SecurityGroup) (port : Int) (desc : String) :
    SecurityGroup :=
  (revokeCalls sg port desc).foldl applyRevoke sg

/-- The remote group state after one successful run of
`update_security_group`: all revokes applied in order, then the authorize. -/
def postState (sg : SecurityGroup) (port : Int) (desc public_ip : String) :
    SecurityGroup :=
  applyAuthorize (postRevokeState sg port desc)
    (authorizeCall sg port desc (public_ip ++ "/32"))

/-!
## Entry collections used to state the claims
-/

/-- The label-`desc` entries of the permissions of `l` selected by `pred`,
in order. -/
def entriesL (pred : IpPermission → Bool) (l : List IpPermission)
    (desc : String) : List IpRange :=
  (l.filter pred).flatMap fun perm =>
    perm.ipRanges.filter fun r => decide (r.description = some desc)

/-- Does this permission's port range cover `port`? -/
def coversPort (port : Int) (perm : IpPermission) : Bool :=
  match perm.fromPort, perm.toPort with
  | some f, some t => decide (f ≤ port ∧ port ≤ t)
  | _, _ => false

/-- Is this permission a tcp rule with port range exactly `[port, port]`? -/
def exactTcp (port : Int) (perm : IpPermission) : Bool :=
  decide (perm.ipProtocol = "tcp" ∧ perm.fromPort = some port ∧
    perm.toPort = some port)

/-- Does this permission have `FromPort == port` (the script's own matching
criterion)? -/
def fromPortIs (port : Int) (perm : IpPermission) : Bool :=
  decide (perm.fromPort = some port)

/-- The label-`desc` entries of `sg` lying in rules whose port range covers
`port`. -/
def entriesCover (sg : SecurityGroup) (port : Int) (desc : String) :
    List IpRange :=
  entriesL (coversPort port) sg.ipPermissions desc

/-- The label-`desc` entries of `sg` lying in tcp rules with port range
exactly `[port, port]`. -/
def entriesExact (sg : SecurityGroup) (port : Int) (desc : String) :
    List IpRange :=
  entriesL (exactTcp port) sg.ipPermissions desc

/-- The label-`desc` entries of `sg` lying in rules with
`FromPort == port`. -/
def entriesPort (sg : SecurityGroup) (port : Int) (desc : String) :
    List IpRange :=
  entriesL (fromPortIs port) sg.ipPermissions desc



/-!
## Embedding of the port-set derivation in `choose_security_group`
(source lines 166-191)
-/

/-- The ports one permission contributes at source lines 169-176:
`port_set.add(from_port)` when the bounds coincide, else
`port_set.update(range(from_port, to_port + 1))`; both collapse to the
integer interval `[fromPort, toPort]`, and a permission missing either bound
contributes nothing. -/
def permPorts (p : IpPermission) : Finset Int :=
  match p.fromPort, p.toPort with
  | some f, some t => Finset.Icc f t
  | _, _ => ∅

/-- The `port_set` computed at source lines 167-176: the union of the port
ranges of the inbound permissions whose protocol is not the wildcard
`"-1"`. -/
def port_set (sg : SecurityGroup) : Finset Int :=
  (sg.ipPermissions.filter fun p => decide (p.ipProtocol ≠ "-1")).foldl
    (fun acc p => acc ∪ permPorts p) ∅

/-- `port_list` at source line 178: the sorted port set. -/
def port_list (sg : SecurityGroup) : List Int :=
  (port_set sg).sort (· ≤ ·)

/-- The port selection at source lines 179-189: a singleton list is taken
directly without prompting; otherwise the operator (`selector`, standing for
the inquirer menu) is asked to pick from the list. -/
def choose_port (sg : SecurityGroup) (selector : List Int → Int) : Int :=
  let pl := port_list sg
  if pl.length = 1 then pl.headI else selector pl

/-- The port set as the specification words it: the union over all TCP
inbound rules with a non-wildcard protocol of each rule's inclusive port
range.  This definition follows the spec's words (for comparison against
`port_set`, which is translated from the source). -/
def specTcpPortSet (sg : SecurityGroup) : Finset Int :=
  (sg.ipPermissions.filter fun p => decide (p.ipProtocol = "tcp")).foldl
    (fun acc p => acc ∪ permPorts p) ∅

/-!
## Embedding of the identity label computed in `main` (source line 265)
-/

/-- Embedding of `os.getenv("USER") or "AWS-ACCESS"`: Python `or` yields the
right operand when the left is falsy, and both `None` (variable unset) and
the empty string are falsy. -/
def userLabel (envUser : Option String) : String :=
  match envUser with
  | none => "AWS-ACCESS"
  | some s => if s = "" then "AWS-ACCESS" else s

/-!
## Fault-injected run for the error-handling claim
-/

/-- Outcomes of one `update_security_group` run as seen by the caller.
`priorReported` is the shape of the distinct partial-reconciliation report
the specification describes (a message plus the removed prior content); it
is available in the type so that its absence from the code's behaviour can
be stated. -/
inductive RunOutcome where
  | ok (ip : String) (updated : Bool)
  | rawError (msg : String)
  | priorReported (msg : String) (prior : List RevokeCall)
deriving DecidableEq

/-- `update_security_group` with a fault injected at the authorize call.
The code wraps no call in try/except, so an error raised by
`authorize_security_group_ingress` propagates verbatim, whatever revokes
already succeeded; `authorizeFailure = none` is the fault-free run. -/
def runReconcile (sg : SecurityGroup) (port : Int)
    (user_name public_ip : String) (authorizeFailure : Option String) :
    RunOutcome :=
  match authorizeFailure with
  | some e => RunOutcome.rawError e
  | none => RunOutcome.ok (public_ip ++ "/32") (existsFlag sg port user_name)

/-!
## Concrete groups used in counterexamples and witnesses
-/

/-- C1 counterexample group: one tcp rule with range 20-30 holding alice's
stale entry. -/
def sgC1 : SecurityGroup :=
  { groupId := "sg-1",
    ipPermissions :=
      [{ ipProtocol := "tcp", fromPort := some 20, toPort := some 30,
         ipRanges :=
           [{ cidrIp := "9.9.9.9/32", description := some "alice" }] }] }

/-- C2 counterexample group: one tcp rule with range 22-30 holding alice's
stale entry. -/
def sgC2 : SecurityGroup :=
  { groupId := "sg-2",
    ipPermissions :=
      [{ ipProtocol := "tcp", fromPort := some 22, toPort := some 30,
         ipRanges :=
           [{ cidrIp := "9.9.9.9/32", description := some "alice" }] }] }

/-- C2 witness group: one exact tcp/22 rule holding alice's entry. -/
def sgC2w : SecurityGroup :=
  { groupId := "w2",
    ipPermissions :=
      [{ ipProtocol := "tcp", fromPort := some 22, toPort := some 22,
         ipRanges :=
           [{ cidrIp := "7.7.7.7/32", description := some "alice" }] }] }

/-- C3 witness group: one tcp/22 rule holding TWO stale alice entries. -/
def sgC3w : SecurityGroup :=
  { groupId := "w3",
    ipPermissions :=
      [{ ipProtocol := "tcp", fromPort := some 22, toPort := some 22,
         ipRanges :=
           [{ cidrIp := "1.1.1.1/32", description := some "alice" },
            { cidrIp := "2.2.2.2/32", description := some "alice" }] }] }

/-- C4 counterexample group: one tcp rule with range 22-30 holding alice's
stale entry. -/
def sgC4 : SecurityGroup :=
  { groupId := "sg-4",
    ipPermissions :=
      [{ ipProtocol := "tcp", fromPort := some 22, toPort := some 30,
         ipRanges :=
           [{ cidrIp := "9.9.9.9/32", description := some "alice" }] }] }

/-- C5 counterexample group: a single UDP inbound rule on port 53. -/
def sgC5 : SecurityGroup :=
  { groupId := "sg-5",
    ipPermissions :=
      [{ ipProtocol := "udp", fromPort := some 53, toPort := some 53,
         ipRanges := [] }] }

/-- C5 witness group: a single UDP inbound rule on port 22. -/
def sgC5w : SecurityGroup :=
  { groupId := "w5",
    ipPermissions :=
      [{ ipProtocol := "udp", fromPort := some 22, toPort := some 22,
         ipRanges := [] }] }

/-- C6 counterexample group: one exact tcp/22 rule holding alice's entry,
so the run's revoke really removes something. -/
def sgC6 : SecurityGroup :=
  { groupId := "sg-6",
    ipPermissions :=
      [{ ipProtocol := "tcp", fromPort := some 22, toPort := some 22,
         ipRanges :=
           [{ cidrIp := "9.9.9.9/32", description := some "alice" }] }] }

/-- C7 counterexample group: alice's stale entry in a tcp 22-30 rule and
bob's entry, with the SAME CIDR, in the exact tcp/22 rule. -/
def sgC7 : SecurityGroup :=
  { groupId := "sg-7",
    ipPermissions :=
      [{ ipProtocol := "tcp", fromPort := some 22, toPort := some 30,
         ipRanges :=
           [{ cidrIp := "9.9.9.9/32", description := some "alice" }] },
       { ipProtocol := "tcp", fromPort := some 22, toPort := some 22,
         ipRanges :=
           [{ cidrIp := "9.9.9.9/32", description := some "bob" }] }] }

/-- C7 witness group: alice's and bob's entries share a rule but not a
CIDR. -/
def sgC7w : SecurityGroup :=
  { groupId := "w7",
    ipPermissions :=
      [{ ipProtocol := "tcp", fromPort := some 22, toPort := some 22,
         ipRanges :=
           [{ cidrIp := "1.1.1.1/32", description := some "alice" },
            { cidrIp := "2.2.2.2/32", description := some "bob" }] }] }

/-- C8 witness group: alice's entry lives on port 80 only. -/
def sgC8w : SecurityGroup :=
  { groupId := "w8",
    ipPermissions :=
      [{ ipProtocol := "tcp", fromPort := some 80, toPort := some 80,
         ipRanges :=
           [{ cidrIp := "5.5.5.5/32", description := some "alice" }] }] }

/-- C9 counterexample group: one tcp rule with range 22-30 holding alice's
stale entry. -/
def sgC9 : SecurityGroup :=
  { groupId := "sg-9",
    ipPermissions :=
      [{ ipProtocol := "tcp", fromPort := some 22, toPort := some 30,
         ipRanges :=
           [{ cidrIp := "9.9.9.9/32", description := some "alice" }] }] }

/-- C9 witness group: carol's entry on tcp/443; no entry for dave. -/
def sgC9w : SecurityGroup :=
  { groupId := "w9",
    ipPermissions :=
      [{ ipProtocol := "tcp", fromPort := some 443, toPort := some 443,
         ipRanges :=
           [{ cidrIp := "4.4.4.4/32", description := some "carol" }] }] }

/-!
## Lemmas about the issued revoke calls
-/

theorem mem_revokeCalls {sg : SecurityGroup} {port : Int} {desc : String}
    {c : RevokeCall} :
    c ∈ revokeCalls sg port desc ↔
      c.groupId = sg.groupId ∧ c.ipProtocol = "tcp" ∧ c.fromPort = port ∧
      c.toPort = port ∧
      ∃ perm ∈ sg.ipPermissions, perm.fromPort = some port ∧
        ∃ r ∈ perm.ipRanges, r.description = some desc ∧
          r.cidrIp = c.cidrIp := by
  unfold revokeCalls
  simp only [List.mem_flatMap]
  constructor
  · rintro ⟨perm, hperm, hc⟩
    split at hc
    · next hfp =>
      simp only [List.mem_filterMap] at hc
      obtain ⟨r, hr, hcr⟩ := hc
      split at hcr
      · next hdesc =>
        injection hcr with hcr
        subst hcr
        exact ⟨rfl, rfl, rfl, rfl, perm, hperm, hfp, r, hr, hdesc, rfl⟩
      · exact absurd hcr (by simp)
    · exact absurd hc (by simp)
  · rintro ⟨hg, hp, hf, ht, perm, hperm, hfp, r, hr, hdesc, hcidr⟩
    refine ⟨perm, hperm, ?_⟩
    rw [if_pos hfp]
    simp only [List.mem_filterMap]
    refine ⟨r, hr, ?_⟩
    rw [if_pos hdesc]
    cases c
    simp only at hg hp hf ht hcidr
    subst hg hp hf ht hcidr
    rfl

/-- Shorthand: the revoke call the loops would issue for one matched
ip-range. -/
theorem revokeCall_of_match {sg : SecurityGroup} {port : Int} {desc : String}
    {perm : IpPermission} {r : IpRange} (hperm : perm ∈ sg.ipPermissions)
    (hfp : perm.fromPort = some port) (hr : r ∈ perm.ipRanges)
    (hdesc : r.description = some desc) :
    ({ groupId := sg.groupId, ipProtocol := "tcp", fromPort := port,
       toPort := port, cidrIp := r.cidrIp } : RevokeCall) ∈
      revokeCalls sg port desc :=
  mem_revokeCalls.mpr ⟨rfl, rfl, rfl, rfl, perm, hperm, hfp, r, hr, hdesc, rfl⟩

theorem existsFlag_iff {sg : SecurityGroup} {port : Int} {desc : String} :
    existsFlag sg port desc = true ↔
      ∃ perm ∈ sg.ipPermissions, perm.fromPort = some port ∧
        ∃ r ∈ perm.ipRanges, r.description = some desc := by
  unfold existsFlag
  rw [Bool.not_eq_true', List.isEmpty_eq_false_iff_exists_mem]
  constructor
  · rintro ⟨c, hc⟩
    obtain ⟨-, -, -, -, perm, hperm, hfp, r, hr, hdesc, -⟩ :=
      mem_revokeCalls.mp hc
    exact ⟨perm, hperm, hfp, r, hr, hdesc⟩
  · rintro ⟨perm, hperm, hfp, r, hr, hdesc⟩
    exact ⟨_, revokeCall_of_match hperm hfp hr hdesc⟩

/-!
## Lemmas about the modelled remote effect of the revoke calls
-/

theorem foldl_applyRevoke (calls : List RevokeCall) (sg : SecurityGroup) :
    calls.foldl applyRevoke sg =
      { sg with ipPermissions :=
          sg.ipPermissions.map (fun p => calls.foldl stepPerm p) } := by
  induction calls generalizing sg with
  | nil => simp
  | cons c cs ih =>
    rw [List.foldl_cons, ih]
    simp only [applyRevoke, List.map_map]
    rfl

theorem stepPerm_ipProtocol (p : IpPermission) (c : RevokeCall) :
    (stepPerm p c).ipProtocol = p.ipProtocol := by
  unfold stepPerm; split <;> rfl

theorem stepPerm_fromPort (p : IpPermission) (c : RevokeCall) :
    (stepPerm p c).fromPort = p.fromPort := by
  unfold stepPerm; split <;> rfl

theorem stepPerm_toPort (p : IpPermission) (c : RevokeCall) :
    (stepPerm p c).toPort = p.toPort := by
  unfold stepPerm; split <;> rfl

theorem mem_of_mem_stepPerm {r : IpRange} {p : IpPermission} {c : RevokeCall}
    (h : r ∈ (stepPerm p c).ipRanges) : r ∈ p.ipRanges := by
  unfold stepPerm at h
  split at h
  · exact (List.mem_filter.mp h).1
  · exact h

theorem mem_stepPerm_of_ne {r : IpRange} {p : IpPermission} {c : RevokeCall}
    (h : r ∈ p.ipRanges) (hne : r.cidrIp ≠ c.cidrIp) :
    r ∈ (stepPerm p c).ipRanges := by
  unfold stepPerm
  split
  · exact List.mem_filter.mpr ⟨h, by simpa using hne⟩
  · exact h

theorem foldl_stepPerm_ipProtocol (calls : List RevokeCall)
    (p : IpPermission) :
    (calls.foldl stepPerm p).ipProtocol = p.ipProtocol := by
  induction calls generalizing p with
  | nil => rfl
  | cons c cs ih => rw [List.foldl_cons, ih, stepPerm_ipProtocol]

theorem foldl_stepPerm_fromPort (calls : List RevokeCall) (p : IpPermission) :
    (calls.foldl stepPerm p).fromPort = p.fromPort := by
  induction calls generalizing p with
  | nil => rfl
  | cons c cs ih => rw [List.foldl_cons, ih, stepPerm_fromPort]

theorem foldl_stepPerm_toPort (calls : List RevokeCall) (p : IpPermission) :
    (calls.foldl stepPerm p).toPort = p.toPort := by
  induction calls generalizing p with
  | nil => rfl
  | cons c cs ih => rw [List.foldl_cons, ih, stepPerm_toPort]

theorem mem_of_mem_foldl_stepPerm {r : IpRange} {calls : List RevokeCall}
    {p : IpPermission} (h : r ∈ (calls.foldl stepPerm p).ipRanges) :
    r ∈ p.ipRanges := by
  induction calls generalizing p with
  | nil => exact h
  | cons c cs ih =>
    rw [List.foldl_cons] at h
    exact mem_of_mem_stepPerm (ih h)

theorem mem_foldl_stepPerm_of_ne {r : IpRange} {calls : List RevokeCall}
    {p : IpPermission} (h : r ∈ p.ipRanges)
    (hne : ∀ c ∈ calls, r.cidrIp ≠ c.cidrIp) :
    r ∈ (calls.foldl stepPerm p).ipRanges := by
  induction calls generalizing p with
  | nil => exact h
  | cons c cs ih =>
    rw [List.foldl_cons]
    exact ih (mem_stepPerm_of_ne h (hne c (List.mem_cons_self c cs)))
      (fun c' hc' => hne c' (List.mem_cons_of_mem c hc'))

theorem foldl_stepPerm_removes {r : IpRange} {calls : List RevokeCall}
    {p : IpPermission} {c : RevokeCall}
    (hmatch : p.ipProtocol = c.ipProtocol ∧ p.fromPort = some c.fromPort ∧
      p.toPort = some c.toPort)
    (hc : c ∈ calls) (hr : r ∈ (calls.foldl stepPerm p).ipRanges) :
    r.cidrIp ≠ c.cidrIp := by
  induction calls generalizing p with
  | nil => cases hc
  | cons c0 cs ih =>
    rw [List.foldl_cons] at hr
    rcases List.mem_cons.mp hc with hc0 | hcs
    · subst hc0
      have hr0 : r ∈ (stepPerm p c).ipRanges := mem_of_mem_foldl_stepPerm hr
      unfold stepPerm at hr0
      rw [if_pos hmatch] at hr0
      have := (List.mem_filter.mp hr0).2
      simpa using this
    · refine ih ?_ hcs hr
      rw [stepPerm_ipProtocol, stepPerm_fromPort, stepPerm_toPort]
      exact hmatch

theorem foldl_stepPerm_of_fromPort_ne {calls : List RevokeCall}
    {p : IpPermission} (h : ∀ c ∈ calls, p.fromPort ≠ some c.fromPort) :
    calls.foldl stepPerm p = p := by
  induction calls with
  | nil => rfl
  | cons c cs ih =>
    rw [List.foldl_cons]
    have hp : stepPerm p c = p := by
      unfold stepPerm
      rw [if_neg]
      rintro ⟨-, h2, -⟩
      exact h c (List.mem_cons_self c cs) h2
    rw [hp]
    exact ih (fun c' hc' => h c' (List.mem_cons_of_mem c hc'))

/-!
## Lemmas about entry collections
-/

theorem mem_entriesL {pred : IpPermission → Bool} {l : List IpPermission}
    {desc : String} {r : IpRange} :
    r ∈ entriesL pred l desc ↔
      ∃ perm, perm ∈ l ∧ pred perm = true ∧ r ∈ perm.ipRanges ∧
        r.description = some desc := by
  unfold entriesL
  simp only [List.mem_flatMap, List.mem_filter, decide_eq_true_eq]
  constructor
  · rintro ⟨perm, ⟨h1, h2⟩, h3, h4⟩
    exact ⟨perm, h1, h2, h3, h4⟩
  · rintro ⟨perm, h1, h2, h3, h4⟩
    exact ⟨perm, ⟨h1, h2⟩, h3, h4⟩

theorem entriesL_eq_nil {pred : IpPermission → Bool} {l : List IpPermission}
    {desc : String}
    (h : ∀ perm ∈ l, pred perm = true → ∀ r ∈ perm.ipRanges,
      r.description ≠ some desc) :
    entriesL pred l desc = [] := by
  rw [List.eq_nil_iff_forall_not_mem]
  intro r hr
  obtain ⟨perm, h1, h2, h3, h4⟩ := mem_entriesL.mp hr
  exact h perm h1 h2 r h3 h4

theorem entriesL_cons (pred : IpPermission → Bool) (p : IpPermission)
    (l : List IpPermission) (desc : String) :
    entriesL pred (p :: l) desc =
      (if pred p then
        p.ipRanges.filter (fun r => decide (r.description = some desc))
       else []) ++ entriesL pred l desc := by
  unfold entriesL
  rw [List.filter_cons]
  split
  · rw [List.flatMap_cons]
  · rw [List.nil_append]

/-!
## Lemmas about the modelled remote effect of the authorize call
-/

theorem addToFirst_has (l : List IpPermission) (c : AuthorizeCall) :
    ∃ perm ∈ addToFirst l c,
      perm.ipProtocol = c.ipProtocol ∧ perm.fromPort = some c.fromPort ∧
      perm.toPort = some c.toPort ∧ ∀ r ∈ c.ipRanges, r ∈ perm.ipRanges := by
  induction l with
  | nil =>
    exact ⟨_, List.mem_singleton.mpr rfl, rfl, rfl, rfl, fun r hr => hr⟩
  | cons p rest ih =>
    rw [addToFirst]
    split
    · next hm =>
      refine ⟨_, List.mem_cons_self _ _, ?_, ?_, ?_, ?_⟩
      · exact hm.1
      · exact hm.2.1
      · exact hm.2.2
      · exact fun r hr => List.mem_append_right _ hr
    · obtain ⟨perm, hmem, h1, h2, h3, h4⟩ := ih
      exact ⟨perm, List.mem_cons_of_mem p hmem, h1, h2, h3, h4⟩

theorem addToFirst_ranges_sub (l : List IpPermission) (c : AuthorizeCall)
    {perm : IpPermission} (h : perm ∈ l) :
    ∃ perm2 ∈ addToFirst l c, perm.ipRanges ⊆ perm2.ipRanges := by
  induction l with
  | nil => cases h
  | cons p rest ih =>
    rw [addToFirst]
    split
    · rcases List.mem_cons.mp h with rfl | hrest
      · exact ⟨_, List.mem_cons_self _ _,
          fun r hr => List.mem_append_left _ hr⟩
      · exact ⟨perm, List.mem_cons_of_mem _ hrest, fun r hr => hr⟩
    · rcases List.mem_cons.mp h with rfl | hrest
      · exact ⟨perm, List.mem_cons_self _ _, fun r hr => hr⟩
      · obtain ⟨perm2, hmem, hsub⟩ := ih hrest
        exact ⟨perm2, List.mem_cons_of_mem _ hmem, hsub⟩

theorem addToFirst_mem_of_fromPort_ne (l : List IpPermission)
    (c : AuthorizeCall) {perm : IpPermission} (h : perm ∈ l)
    (hne : perm.fromPort ≠ some c.fromPort) : perm ∈ addToFirst l c := by
  induction l with
  | nil => cases h
  | cons p rest ih =>
    rw [addToFirst]
    split
    · next hm =>
      rcases List.mem_cons.mp h with rfl | hrest
      · exact absurd hm.2.1 hne
      · exact List.mem_cons_of_mem _ hrest
    · rcases List.mem_cons.mp h with rfl | hrest
      · exact List.mem_cons_self _ _
      · exact List.mem_cons_of_mem _ (ih hrest)

/-- Descriptions of the entries added by the authorize call, collected by a
predicate that only looks at a permission's protocol and port bounds and
accepts the authorized rule shape, assuming no selected permission already
held a label-`desc` entry. -/
theorem entriesL_addToFirst (pred : IpPermission → Bool)
    (l : List IpPermission) (c : AuthorizeCall) (desc : String)
    (hpred1 : ∀ proto fp tp rs rs',
      pred ⟨proto, fp, tp, rs⟩ = pred ⟨proto, fp, tp, rs'⟩)
    (hpred2 : pred
      { ipProtocol := c.ipProtocol, fromPort := some c.fromPort,
        toPort := some c.toPort, ipRanges := c.ipRanges } = true)
    (h : ∀ perm ∈ l, pred perm = true → ∀ r ∈ perm.ipRanges,
      r.description ≠ some desc) :
    entriesL pred (addToFirst l c) desc =
      c.ipRanges.filter (fun r => decide (r.description = some desc)) := by
  induction l with
  | nil =>
    rw [addToFirst, entriesL_cons, if_pos hpred2]
    rw [entriesL, List.filter_nil, List.flatMap_nil, List.append_nil]
  | cons p rest ih =>
    rw [addToFirst]
    split
    · next hm =>
      obtain ⟨hm1, hm2, hm3⟩ := hm
      have hpredp : pred p = true := by
        have hp : p =
            { ipProtocol := c.ipProtocol, fromPort := some c.fromPort,
              toPort := some c.toPort, ipRanges := p.ipRanges } := by
          cases p
          simp only at hm1 hm2 hm3
          rw [hm1, hm2, hm3]
        rw [hp]
        exact (hpred1 _ _ _ p.ipRanges c.ipRanges).trans hpred2
      rw [entriesL_cons]
      have hpredp2 : pred { p with ipRanges := p.ipRanges ++ c.ipRanges } =
          true :=
        ((hpred1 p.ipProtocol p.fromPort p.toPort _ p.ipRanges).trans
          hpredp : _)
      rw [if_pos hpredp2]
      have hfp : p.ipRanges.filter
          (fun r => decide (r.description = some desc)) = [] := by
        rw [List.filter_eq_nil_iff]
        intro r hr
        simpa using h p (List.mem_cons_self _ _) hpredp r hr
      have hrest : entriesL pred rest desc = [] :=
        entriesL_eq_nil (fun perm hperm => h perm (List.mem_cons_of_mem p hperm))
      rw [List.filter_append, hfp, List.nil_append, hrest, List.append_nil]
    · rw [entriesL_cons]
      have hhead : (if pred p then
          p.ipRanges.filter (fun r => decide (r.description = some desc))
         else []) = [] := by
        split
        · next hp =>
          rw [List.filter_eq_nil_iff]
          intro r hr
          simpa using h p (List.mem_cons_self _ _) hp r hr
        · rfl
      rw [hhead, List.nil_append]
      exact ih (fun perm hperm => h perm (List.mem_cons_of_mem p hperm))

/-!
## Main reconciliation lemmas
-/

/-- After the revoke phase no label-`desc` entry remains in any tcp rule with
port range exactly `[port, port]`: every such entry sits in a rule with
`FromPort == port`, so the loops issued a revoke for its CIDR, and that
revoke's parameters match its rule exactly. -/
theorem entriesExact_postRevokeState (sg : SecurityGroup) (port : Int)
    (desc : String) :
    entriesExact (postRevokeState sg port desc) port desc = [] := by
  refine List.eq_nil_iff_forall_not_mem.mpr fun r hr => ?_
  rw [entriesExact] at hr
  obtain ⟨perm, hperm, hpred, hrr, hdesc⟩ := mem_entriesL.mp hr
  rw [postRevokeState, foldl_applyRevoke] at hperm
  simp only [List.mem_map] at hperm
  obtain ⟨p, hp, rfl⟩ := hperm
  rw [exactTcp, decide_eq_true_eq, foldl_stepPerm_ipProtocol,
    foldl_stepPerm_fromPort, foldl_stepPerm_toPort] at hpred
  obtain ⟨hproto, hfrom, hto⟩ := hpred
  have hrp : r ∈ p.ipRanges := mem_of_mem_foldl_stepPerm hrr
  have hcall := revokeCall_of_match hp hfrom hrp hdesc
  exact foldl_stepPerm_removes ⟨hproto, hfrom, hto⟩ hcall hrr rfl

/-- After a full run the tcp rules with port range exactly `[port, port]`
hold exactly one label-`desc` entry: the just-authorized address. -/
theorem entriesExact_postState (sg : SecurityGroup) (port : Int)
    (desc public_ip : String) :
    entriesExact (postState sg port desc public_ip) port desc =
      [{ cidrIp := public_ip ++ "/32", description := some desc }] := by
  have hnone : ∀ perm ∈ (postRevokeState sg port desc).ipPermissions,
      exactTcp port perm = true → ∀ r ∈ perm.ipRanges,
        r.description ≠ some desc := by
    intro perm hperm hpred r hr hdesc
    have hmem : r ∈ entriesExact (postRevokeState sg port desc) port desc :=
      mem_entriesL.mpr ⟨perm, hperm, hpred, hr, hdesc⟩
    rw [entriesExact_postRevokeState] at hmem
    cases hmem
  rw [postState, entriesExact, applyAuthorize,
    entriesL_addToFirst (exactTcp port) _ _ desc (fun _ _ _ _ _ => rfl)
      (by simp [exactTcp, authorizeCall]) hnone]
  simp [authorizeCall]

/-- The authorize call lands the new `(address/32, desc)` entry in a rule
with `FromPort == port` of the final state. -/
theorem postState_has_new_entry (sg : SecurityGroup) (port : Int)
    (desc public_ip : String) :
    ∃ perm ∈ (postState sg port desc public_ip).ipPermissions,
      perm.fromPort = some port ∧
      ({ cidrIp := public_ip ++ "/32", description := some desc } : IpRange) ∈
        perm.ipRanges := by
  obtain ⟨perm, hmem, h1, h2, h3, h4⟩ :=
    addToFirst_has (postRevokeState sg port desc).ipPermissions
      (authorizeCall sg port desc (public_ip ++ "/32"))
  exact ⟨perm, hmem, h2, h4 _ (List.mem_singleton.mpr rfl)⟩

/-- A second run on the refetched state always finds a prior entry. -/
theorem existsFlag_postState (sg : SecurityGroup) (port : Int)
    (desc public_ip : String) :
    existsFlag (postState sg port desc public_ip) port desc = true := by
  rw [existsFlag_iff]
  obtain ⟨perm, hmem, hfp, hin⟩ :=
    postState_has_new_entry sg port desc public_ip
  exact ⟨perm, hmem, hfp, _, hin, rfl⟩

/-- An entry whose CIDR is hit by no issued revoke survives the whole run. -/
theorem entry_survives (sg : SecurityGroup) (port : Int)
    (desc public_ip : String) {perm : IpPermission} {r : IpRange}
    (hperm : perm ∈ sg.ipPermissions) (hr : r ∈ perm.ipRanges)
    (hno : ∀ c ∈ revokeCalls sg port desc, r.cidrIp ≠ c.cidrIp) :
    ∃ perm2 ∈ (postState sg port desc public_ip).ipPermissions,
      r ∈ perm2.ipRanges := by
  have hmid : (revokeCalls sg port desc).foldl stepPerm perm ∈
      (postRevokeState sg port desc).ipPermissions := by
    rw [postRevokeState, foldl_applyRevoke]
    exact List.mem_map_of_mem _ hperm
  have hrmid : r ∈ ((revokeCalls sg port desc).foldl stepPerm perm).ipRanges :=
    mem_foldl_stepPerm_of_ne hr hno
  obtain ⟨perm2, hmem2, hsub⟩ :=
    addToFirst_ranges_sub (postRevokeState sg port desc).ipPermissions
      (authorizeCall sg port desc (public_ip ++ "/32")) hmid
  exact ⟨perm2, hmem2, hsub hrmid⟩

/-- A whole rule keyed to a different `FromPort` is carried through the run
unchanged. -/
theorem perm_preserved_of_fromPort_ne (sg : SecurityGroup) (port : Int)
    (desc public_ip : String) {perm : IpPermission}
    (hperm : perm ∈ sg.ipPermissions) (hne : perm.fromPort ≠ some port) :
    perm ∈ (postState sg port desc public_ip).ipPermissions := by
  have hfold : (revokeCalls sg port desc).foldl stepPerm perm = perm :=
    foldl_stepPerm_of_fromPort_ne (fun c hc => by
      obtain ⟨-, -, hf, -, -⟩ := mem_revokeCalls.mp hc
      rw [hf]
      exact hne)
  have hmid : perm ∈ (postRevokeState sg port desc).ipPermissions := by
    rw [postRevokeState, foldl_applyRevoke]
    exact List.mem_map.mpr ⟨perm, hperm, hfold⟩
  exact addToFirst_mem_of_fromPort_ne _ _ hmid hne

/-- When no rule with `FromPort == port` holds a label-`desc` entry, the
loops issue no revoke at all. -/
theorem revokeCalls_eq_nil {sg : SecurityGroup} {port : Int} {desc : String}
    (h : ∀ perm ∈ sg.ipPermissions, perm.fromPort = some port →
      ∀ r ∈ perm.ipRanges, r.description ≠ some desc) :
    revokeCalls sg port desc = [] := by
  refine List.eq_nil_iff_forall_not_mem.mpr fun c hc => ?_
  obtain ⟨-, -, -, -, perm, hperm, hfp, r, hr, hdesc, -⟩ :=
    mem_revokeCalls.mp hc
  exact h perm hperm hfp r hr hdesc

/-- Empty-state creation: with no prior matching entry the run leaves exactly
one label-`desc` entry among the rules with `FromPort == port`. -/
theorem entriesPort_postState_of_no_match (sg : SecurityGroup) (port : Int)
    (desc public_ip : String)
    (h : ∀ perm ∈ sg.ipPermissions, perm.fromPort = some port →
      ∀ r ∈ perm.ipRanges, r.description ≠ some desc) :
    entriesPort (postState sg port desc public_ip) port desc =
      [{ cidrIp := public_ip ++ "/32", description := some desc }] := by
  have hpost : postRevokeState sg port desc = sg := by
    rw [postRevokeState, revokeCalls_eq_nil h]
    rfl
  have hh : ∀ perm ∈ sg.ipPermissions, fromPortIs port perm = true →
      ∀ r ∈ perm.ipRanges, r.description ≠ some desc := by
    intro perm hperm hpred
    rw [fromPortIs, decide_eq_true_eq] at hpred
    exact h perm hperm hpred
  rw [postState, hpost, entriesPort, applyAuthorize,
    entriesL_addToFirst (fromPortIs port) _ _ desc (fun _ _ _ _ _ => rfl)
      (by simp [fromPortIs, authorizeCall]) hh]
  simp [authorizeCall]

/-!
## Lemmas about the port-set derivation
-/

theorem mem_foldl_union {l : List IpPermission} {acc : Finset Int} {x : Int} :
    x ∈ l.foldl (fun acc' p => acc' ∪ permPorts p) acc ↔
      x ∈ acc ∨ ∃ p ∈ l, x ∈ permPorts p := by
  induction l generalizing acc with
  | nil => simp
  | cons p rest ih =>
    rw [List.foldl_cons, ih]
    simp only [Finset.mem_union, List.mem_cons]
    constructor
    · rintro ((h | h) | ⟨q, hq, hx⟩)
      · exact Or.inl h
      · exact Or.inr ⟨p, Or.inl rfl, h⟩
      · exact Or.inr ⟨q, Or.inr hq, hx⟩
    · rintro (h | ⟨q, (rfl | hq), hx⟩)
      · exact Or.inl (Or.inl h)
      · exact Or.inl (Or.inr hx)
      · exact Or.inr ⟨q, hq, hx⟩

theorem mem_permPorts {p : IpPermission} {x : Int} :
    x ∈ permPorts p ↔ ∃ f t, p.fromPort = some f ∧ p.toPort = some t ∧
      f ≤ x ∧ x ≤ t := by
  obtain ⟨proto, fp, tp, rs⟩ := p
  cases fp <;> cases tp <;> simp [permPorts, Finset.mem_Icc]

theorem mem_port_set {sg : SecurityGroup} {x : Int} :
    x ∈ port_set sg ↔
      ∃ perm ∈ sg.ipPermissions, perm.ipProtocol ≠ "-1" ∧
        ∃ f t, perm.fromPort = some f ∧ perm.toPort = some t ∧
          f ≤ x ∧ x ≤ t := by
  rw [port_set, mem_foldl_union]
  simp only [Finset.not_mem_empty, false_or, List.mem_filter,
    decide_eq_true_eq, mem_permPorts]
  constructor
  · rintro ⟨p, ⟨hp, hproto⟩, hx⟩
    exact ⟨p, hp, hproto, hx⟩
  · rintro ⟨p, hp, hproto, hx⟩
    exact ⟨p, ⟨hp, hproto⟩, hx⟩

theorem choose_port_of_singleton {sg : SecurityGroup} {p : Int}
    (h : port_set sg = {p}) (selector : List Int → Int) :
    choose_port sg selector = p := by
  have hl : port_list sg = [p] := by
    rw [port_list, h]
    exact Finset.sort_singleton _ p
  simp [choose_port, hl]

/-!
## The claims
-/

/-- C1, counterexample.  The claim demands exactly one label-`alice` entry in
a rule whose port range covers 22 after a successful run.  On `sgC1` the
stale alice entry sits in a tcp 20-30 rule: the scan (which keys on
`FromPort == port`) never matches it, so after the run TWO alice entries lie
in rules covering 22. -/
theorem C1_counterexample :
    (entriesCover (postState sgC1 22 "alice" "1.2.3.4") 22 "alice").length
        = 2 ∧
    ¬ (entriesCover (postState sgC1 22 "alice" "1.2.3.4") 22
        "alice").length = 1 := by
  decide

/-- C1 (amended): after a successful run the policy holds exactly one
label-`desc` entry among the TCP rules with port range exactly
`[port, port]`, and that entry's address is the just-resolved address
suffixed with `/32`.  Same-label entries in rules that merely cover or
overlap the port can survive, because the scan keys on `FromPort == port`
and the revoke hard-codes the `[port, port]` bounds. -/
theorem C1_amended_invariant (sg : SecurityGroup) (port : Int)
    (desc public_ip : String) :
    entriesExact (postState sg port desc public_ip) port desc =
      [{ cidrIp := public_ip ++ "/32", description := some desc }] :=
  entriesExact_postState sg port desc public_ip

/-- C2, counterexample.  On `sgC2` the matched rule has bounds 22-30, yet
the single issued revoke names `(tcp, 22, 22)`: the parameters do not
identify the matched rule's actual bounds, and applying the revokes deletes
nothing — the matched entry stays. -/
theorem C2_counterexample :
    (∃ perm ∈ sgC2.ipPermissions, perm.fromPort = some 22 ∧
      perm.toPort = some 30 ∧
      ∃ r ∈ perm.ipRanges, r.description = some "alice") ∧
    revokeCalls sgC2 22 "alice" =
      [{ groupId := "sg-2", ipProtocol := "tcp", fromPort := 22,
         toPort := 22, cidrIp := "9.9.9.9/32" }] ∧
    postRevokeState sgC2 22 "alice" = sgC2 := by
  decide

/-- C2 (amended): every issued revoke names the group, protocol `"tcp"` and
bounds `(port, port)` — not the matched rule's own protocol and `ToPort` —
together with the CIDR of some matched entry; consequently a matched entry
is actually deleted remotely when its rule is a tcp rule with bounds exactly
`[port, port]`: after the revoke phase no label-`desc` entry remains in any
such rule. -/
theorem C2_amended_revoke (sg : SecurityGroup) (port : Int) (desc : String) :
    (∀ c ∈ revokeCalls sg port desc,
      c.groupId = sg.groupId ∧ c.ipProtocol = "tcp" ∧ c.fromPort = port ∧
      c.toPort = port ∧
      ∃ perm ∈ sg.ipPermissions, perm.fromPort = some port ∧
        ∃ r ∈ perm.ipRanges, r.description = some desc ∧
          r.cidrIp = c.cidrIp) ∧
    (∀ perm ∈ (postRevokeState sg port desc).ipPermissions,
      exactTcp port perm = true → ∀ r ∈ perm.ipRanges,
        r.description ≠ some desc) := by
  constructor
  · intro c hc
    exact mem_revokeCalls.mp hc
  · intro perm hperm hpred r hr hdesc
    have hmem : r ∈ entriesExact (postRevokeState sg port desc) port desc :=
      mem_entriesL.mpr ⟨perm, hperm, hpred, hr, hdesc⟩
    rw [entriesExact_postRevokeState] at hmem
    cases hmem

/-- Witness for C2 (amended), at `sgC2w` and its one issued revoke call. -/
theorem C2_amended_revoke_witness :
    ∃ perm ∈ sgC2w.ipPermissions, perm.fromPort = some 22 ∧
      ∃ r ∈ perm.ipRanges, r.description = some "alice" ∧
        r.cidrIp = "7.7.7.7/32" :=
  ((C2_amended_revoke sgC2w 22 "alice").1
    { groupId := "w2", ipProtocol := "tcp", fromPort := 22, toPort := 22,
      cidrIp := "7.7.7.7/32" } (by decide)).2.2.2.2

/-- C3: the revoke scan is exhaustive — for EVERY permission with
`FromPort == port` and EVERY of its entries labelled `desc`, the
corresponding revoke call is issued (the nested loops have no break). -/
theorem C3_revoke_scan_exhaustive (sg : SecurityGroup) (port : Int)
    (desc : String) (perm : IpPermission) (r : IpRange)
    (hperm : perm ∈ sg.ipPermissions) (hfp : perm.fromPort = some port)
    (hr : r ∈ perm.ipRanges) (hdesc : r.description = some desc) :
    ({ groupId := sg.groupId, ipProtocol := "tcp", fromPort := port,
       toPort := port, cidrIp := r.cidrIp } : RevokeCall) ∈
      revokeCalls sg port desc :=
  revokeCall_of_match hperm hfp hr hdesc

/-- Witness for C3, on a group with TWO stale alice entries: both revoke
calls are issued. -/
theorem C3_witness :
    ({ groupId := "w3", ipProtocol := "tcp", fromPort := 22, toPort := 22,
       cidrIp := "1.1.1.1/32" } : RevokeCall) ∈
        revokeCalls sgC3w 22 "alice" ∧
    ({ groupId := "w3", ipProtocol := "tcp", fromPort := 22, toPort := 22,
       cidrIp := "2.2.2.2/32" } : RevokeCall) ∈
        revokeCalls sgC3w 22 "alice" :=
  ⟨C3_revoke_scan_exhaustive sgC3w 22 "alice"
    { ipProtocol := "tcp", fromPort := some 22, toPort := some 22,
      ipRanges := [{ cidrIp := "1.1.1.1/32", description := some "alice" },
                   { cidrIp := "2.2.2.2/32", description := some "alice" }] }
    { cidrIp := "1.1.1.1/32", description := some "alice" }
    (by decide) rfl (by decide) rfl,
   C3_revoke_scan_exhaustive sgC3w 22 "alice"
    { ipProtocol := "tcp", fromPort := some 22, toPort := some 22,
      ipRanges := [{ cidrIp := "1.1.1.1/32", description := some "alice" },
                   { cidrIp := "2.2.2.2/32", description := some "alice" }] }
    { cidrIp := "2.2.2.2/32", description := some "alice" }
    (by decide) rfl (by decide) rfl⟩

/-- C4, counterexample.  On `sgC4` the second run (on the refetched state)
does return `replacedPrior = true`, but TWO entries matching
(`FromPort == 22`, label alice) remain afterwards: the stale entry in the
22-30 rule is matched on every run and never actually removed. -/
theorem C4_counterexample :
    existsFlag (postState sgC4 22 "alice" "1.2.3.4") 22 "alice" = true ∧
    (entriesPort
      (postState (postState sgC4 22 "alice" "1.2.3.4") 22 "alice" "1.2.3.4")
      22 "alice").length = 2 := by
  decide

/-- C4 (amended): running the reconciler twice with an unchanged resolved
address yields `replacedPrior = true` on the second run and leaves exactly
one matching entry among the TCP rules with port range exactly
`[port, port]` (matching entries in wider same-`FromPort` rules can
persist). -/
theorem C4_amended_idempotence (sg : SecurityGroup) (port : Int)
    (desc public_ip : String) :
    existsFlag (postState sg port desc public_ip) port desc = true ∧
    entriesExact
      (postState (postState sg port desc public_ip) port desc public_ip)
      port desc =
      [{ cidrIp := public_ip ++ "/32", description := some desc }] :=
  ⟨existsFlag_postState sg port desc public_ip,
   entriesExact_postState (postState sg port desc public_ip) port desc
     public_ip⟩

/-- C5, counterexample.  On `sgC5` (one UDP rule on port 53) the code's
usable port set is `{53}` while the spec's union over TCP rules is empty:
the code filters only the wildcard protocol `"-1"`, not non-TCP
protocols. -/
theorem C5_counterexample :
    port_set sgC5 ≠ specTcpPortSet sgC5 ∧
    port_set sgC5 = {53} ∧ specTcpPortSet sgC5 = ∅ := by
  decide

/-- C5 (amended): the usable port set is the union, over all inbound rules
whose protocol is not the wildcard `"-1"` (not only TCP rules) and that
carry both port bounds, of the rule's inclusive port range; when that set is
a singleton its element is chosen without consulting the operator. -/
theorem C5_amended_port_set (sg : SecurityGroup) (x : Int)
    (selector : List Int → Int) :
    (x ∈ port_set sg ↔
      ∃ perm ∈ sg.ipPermissions, perm.ipProtocol ≠ "-1" ∧
        ∃ f t, perm.fromPort = some f ∧ perm.toPort = some t ∧
          f ≤ x ∧ x ≤ t) ∧
    (port_set sg = {x} → choose_port sg selector = x) :=
  ⟨mem_port_set, fun h => choose_port_of_singleton h selector⟩

/-- Witness for C5 (amended) on `sgC5w`: port 22 is in the derived set and
is auto-selected whatever the operator callback would answer. -/
theorem C5_amended_port_set_witness :
    choose_port sgC5w (fun _ => 0) = 22 ∧ 22 ∈ port_set sgC5w :=
  ⟨(C5_amended_port_set sgC5w 22 (fun _ => 0)).2 (by decide),
   (C5_amended_port_set sgC5w 22 (fun _ => 0)).1.mpr
     ⟨{ ipProtocol := "udp", fromPort := some 22, toPort := some 22,
        ipRanges := [] }, by decide, by decide, 22, 22, rfl, rfl,
      by decide, by decide⟩⟩

/-- C6, counterexample.  On `sgC6` a revoke is issued and really removes the
prior entry; injecting an authorize failure makes the run surface the raw
provider error — it is never the distinct partial-reconciliation report
carrying the removed prior content. -/
theorem C6_counterexample :
    revokeCalls sgC6 22 "alice" ≠ [] ∧
    entriesExact (postRevokeState sgC6 22 "alice") 22 "alice" = [] ∧
    runReconcile sgC6 22 "alice" "1.2.3.4" (some "boom") =
      RunOutcome.rawError "boom" ∧
    ∀ m p, runReconcile sgC6 22 "alice" "1.2.3.4" (some "boom") ≠
      RunOutcome.priorReported m p := by
  refine ⟨by decide, by decide, rfl, ?_⟩
  intro m p h
  exact RunOutcome.noConfusion h

/-- C6 (amended): when the authorize call fails the run propagates the raw
provider error verbatim — it never looks successful, but it also never
produces a distinct partial-reconciliation report with the removed rule's
prior content, whatever revokes already succeeded (the code installs no
exception handler). -/
theorem C6_amended_error (sg : SecurityGroup) (port : Int)
    (user_name public_ip e : String) :
    runReconcile sg port user_name public_ip (some e) =
      RunOutcome.rawError e ∧
    (∀ m p, runReconcile sg port user_name public_ip (some e) ≠
      RunOutcome.priorReported m p) ∧
    (∀ ip b, runReconcile sg port user_name public_ip (some e) ≠
      RunOutcome.ok ip b) := by
  refine ⟨rfl, ?_, ?_⟩ <;> intro a b h <;> exact RunOutcome.noConfusion h

/-- C7, counterexample.  On `sgC7`, reconciling for label alice removes
BOB's entry: bob's exact tcp/22 rule shares the CIDR of alice's stale entry
in the 22-30 rule, and the revoke triggered by alice's entry names exactly
bob's rule bounds and CIDR. -/
theorem C7_counterexample :
    (∃ perm ∈ sgC7.ipPermissions,
      ({ cidrIp := "9.9.9.9/32", description := some "bob" } : IpRange) ∈
        perm.ipRanges) ∧
    (∀ perm ∈ (postState sgC7 22 "alice" "1.2.3.4").ipPermissions,
      ({ cidrIp := "9.9.9.9/32", description := some "bob" } : IpRange) ∉
        perm.ipRanges) := by
  decide

/-- C7 (amended): every revoke's CIDR stems from a label-`L2` entry of a
rule with `FromPort == port`, and an entry with a different label `L1`
survives the run whenever no such `L2` entry shares its CIDR (the
counterexample shows it can be removed when one does). -/
theorem C7_amended_label_isolation (sg : SecurityGroup) (port : Int)
    (L1 L2 public_ip : String) (perm : IpPermission) (r : IpRange)
    (_hL : L1 ≠ L2) (hperm : perm ∈ sg.ipPermissions)
    (hr : r ∈ perm.ipRanges) (_hlab : r.description = some L1)
    (hshare : ∀ perm' ∈ sg.ipPermissions, perm'.fromPort = some port →
      ∀ r' ∈ perm'.ipRanges, r'.description = some L2 →
        r'.cidrIp ≠ r.cidrIp) :
    (∀ c ∈ revokeCalls sg port L2,
      ∃ perm' ∈ sg.ipPermissions, perm'.fromPort = some port ∧
        ∃ r' ∈ perm'.ipRanges, r'.description = some L2 ∧
          r'.cidrIp = c.cidrIp) ∧
    ∃ perm2 ∈ (postState sg port L2 public_ip).ipPermissions,
      r ∈ perm2.ipRanges := by
  constructor
  · intro c hc
    obtain ⟨-, -, -, -, perm', hperm', hfp', r', hr', hdesc', hcidr'⟩ :=
      mem_revokeCalls.mp hc
    exact ⟨perm', hperm', hfp', r', hr', hdesc', hcidr'⟩
  · refine entry_survives sg port L2 public_ip hperm hr ?_
    intro c hc heq
    obtain ⟨-, -, -, -, perm', hperm', hfp', r', hr', hdesc', hcidr'⟩ :=
      mem_revokeCalls.mp hc
    exact hshare perm' hperm' hfp' r' hr' hdesc' (hcidr'.trans heq.symm)

/-- Witness for C7 (amended) on `sgC7w`: reconciling for alice leaves bob's
entry (whose CIDR no alice entry shares) in place. -/
theorem C7_amended_label_isolation_witness :
    ∃ perm2 ∈ (postState sgC7w 22 "alice" "3.3.3.3").ipPermissions,
      ({ cidrIp := "2.2.2.2/32", description := some "bob" } : IpRange) ∈
        perm2.ipRanges :=
  (C7_amended_label_isolation sgC7w 22 "bob" "alice" "3.3.3.3"
    { ipProtocol := "tcp", fromPort := some 22, toPort := some 22,
      ipRanges := [{ cidrIp := "1.1.1.1/32", description := some "alice" },
                   { cidrIp := "2.2.2.2/32", description := some "bob" }] }
    { cidrIp := "2.2.2.2/32", description := some "bob" }
    (by decide) (by decide) (by decide) rfl (by decide)).2

/-- C8: port isolation.  A rule keyed to a different `FromPort = P2 ≠ P1` is
named by no issued revoke (they all carry `FromPort = P1`) and is carried
through the whole run unchanged, its same-label entries included. -/
theorem C8_port_isolation (sg : SecurityGroup) (P1 P2 : Int)
    (desc public_ip : String) (perm : IpPermission)
    (hperm : perm ∈ sg.ipPermissions) (hfp : perm.fromPort = some P2)
    (hne : P2 ≠ P1) :
    (∀ c ∈ revokeCalls sg P1 desc, some c.fromPort ≠ perm.fromPort) ∧
    perm ∈ (postState sg P1 desc public_ip).ipPermissions := by
  constructor
  · intro c hc
    obtain ⟨-, -, hf, -, -⟩ := mem_revokeCalls.mp hc
    rw [hf, hfp]
    intro h
    exact hne (Option.some_inj.mp h).symm
  · refine perm_preserved_of_fromPort_ne sg P1 desc public_ip hperm ?_
    rw [hfp]
    intro h
    exact hne (Option.some_inj.mp h)

/-- Witness for C8 on `sgC8w`: alice's tcp/80 rule survives reconciling
port 22 for alice untouched. -/
theorem C8_port_isolation_witness :
    ({ ipProtocol := "tcp", fromPort := some 80, toPort := some 80,
       ipRanges := [{ cidrIp := "5.5.5.5/32", description := some "alice" }] }
      : IpPermission) ∈
      (postState sgC8w 22 "alice" "1.2.3.4").ipPermissions :=
  (C8_port_isolation sgC8w 22 80 "alice" "1.2.3.4"
    { ipProtocol := "tcp", fromPort := some 80, toPort := some 80,
      ipRanges := [{ cidrIp := "5.5.5.5/32", description := some "alice" }] }
    (by decide) rfl (by decide)).2

/-- C9, counterexample.  On `sgC9` the returned flag is `true` although
nothing is removed: the only matched entry sits in a 22-30 rule the
hard-coded `(tcp, 22, 22)` revoke cannot touch, the revoke phase leaves the
group unchanged, and the authorize only adds — so "true iff at least one
prior matching entry was removed" fails. -/
theorem C9_counterexample :
    existsFlag sgC9 22 "alice" = true ∧
    postRevokeState sgC9 22 "alice" = sgC9 ∧
    (∀ perm ∈ sgC9.ipPermissions,
      perm ∈ (postState sgC9 22 "alice" "1.2.3.4").ipPermissions) := by
  decide

/-- C9 (amended): the returned flag is true iff at least one prior entry
MATCHED (`FromPort == port` and the given label) — every match is targeted
by a revoke but not necessarily removed; and with no prior matching entry
the run returns `false` and leaves exactly one entry for the label among
the rules with `FromPort == port`. -/
theorem C9_amended_flag (sg : SecurityGroup) (port : Int)
    (desc public_ip : String) :
    (existsFlag sg port desc = true ↔
      ∃ perm ∈ sg.ipPermissions, perm.fromPort = some port ∧
        ∃ r ∈ perm.ipRanges, r.description = some desc) ∧
    ((∀ perm ∈ sg.ipPermissions, perm.fromPort = some port →
        ∀ r ∈ perm.ipRanges, r.description ≠ some desc) →
      existsFlag sg port desc = false ∧
      entriesPort (postState sg port desc public_ip) port desc =
        [{ cidrIp := public_ip ++ "/32", description := some desc }]) := by
  refine ⟨existsFlag_iff, fun h => ⟨?_,
    entriesPort_postState_of_no_match sg port desc public_ip h⟩⟩
  rw [existsFlag, revokeCalls_eq_nil h]
  rfl

/-- Witness for C9 (amended) on `sgC9w`: no prior entry for dave, so the
flag is false and exactly one dave entry exists afterwards. -/
theorem C9_amended_flag_witness :
    existsFlag sgC9w 443 "dave" = false ∧
    entriesPort (postState sgC9w 443 "dave" "6.6.6.6") 443 "dave" =
      [{ cidrIp := "6.6.6.6/32", description := some "dave" }] :=
  (C9_amended_flag sgC9w 443 "dave" "6.6.6.6").2 (by decide)

/-- C10: the identity-label fallback fires when USER is unset AND when it is
set to the empty string (both are falsy for Python's `or`), and every
non-empty USER value is used verbatim as the label. -/
theorem C10_user_label_fallback (env : Option String) :
    ((env = none ∨ env = some "") → userLabel env = "AWS-ACCESS") ∧
    (∀ s, env = some s → s ≠ "" → userLabel env = s) := by
  constructor
  · rintro (rfl | rfl) <;> rfl
  · rintro s rfl hs
    simp [userLabel, hs]

/-- Witness for C10: the fallback on unset and on empty, and a verbatim
non-empty value. -/
theorem C10_user_label_fallback_witness :
    userLabel none = "AWS-ACCESS" ∧ userLabel (some "") = "AWS-ACCESS" ∧
    userLabel (some "vitor") = "vitor" :=
  ⟨(C10_user_label_fallback none).1 (Or.inl rfl),
   (C10_user_label_fallback (some "")).1 (Or.inr rfl),
   (C10_user_label_fallback (some "vitor")).2 "vitor" rfl (by decide)⟩
